import Mathlib

set_option linter.all false

/-
Verification development for the event-plot script (plot.py).

The script reads a day-blocked text log of timestamped events, reverses the
accumulated sequences (the file stores newest-block-first), derives per-day
counts and summary statistics, and emits series for plotting.  This file
embeds the parsing and statistics pipeline shallowly: Python datetimes become
a (day number, minute-of-day) structure, datetime.strptime is modelled with
CPython TimeRE's variable-width per-field regex alternatives and their
backtracking over the concatenated date+hour string, timedeltas become
integer minutes, Python floats become rationals, and Python exceptions
become an explicit error type (ValueError for strptime and min-of-empty failures, IndexError
for pop-from-empty-list, ZeroDivisionError for division by len of an empty
list or by a zero median).
-/

/- Error type mirroring the Python exceptions the script can raise. -/

inductive PyErr where
  | valueError : PyErr
  | indexError : PyErr
  | zeroDivisionError : PyErr
deriving DecidableEq, Repr

/- Calendar arithmetic backing datetime.strptime's date validation.
   Day numbers count days from an arbitrary fixed origin (year 1). -/

def isLeap (y : Nat) : Bool := y % 4 == 0 && (y % 100 != 0 || y % 400 == 0)

def monthLengths (leap : Bool) : List Nat :=
  [31, if leap then 29 else 28, 31, 30, 31, 30, 31, 31, 30, 31, 30, 31]

def daysInMonth (y m : Nat) : Nat := (monthLengths (isLeap y)).getD (m - 1) 0

def daysBeforeMonth (y m : Nat) : Nat := ((monthLengths (isLeap y)).take (m - 1)).sum

def daysBeforeYear (y : Nat) : Nat :=
  365 * (y - 1) + (y - 1) / 4 + (y - 1) / 400 - (y - 1) / 100

def dayNumber (y m d : Nat) : Nat := daysBeforeYear y + daysBeforeMonth y m + (d - 1)

/- A parsed datetime at minute resolution: day number plus minute of day. -/

structure DateTime where
  day : Nat
  minute : Nat
deriving DecidableEq, Repr, Inhabited

/- Total minutes, for timedelta arithmetic (datetime subtraction). -/
def toMin (e : DateTime) : Int := (e.day : Int) * 1440 + (e.minute : Int)

def digitVal (c : Char) : Nat := c.toNat - 48

def isDigitChar (c : Char) : Bool := 48 ≤ c.toNat && c.toNat ≤ 57

/- datetime.strptime compiles '%y%m%d%H%M' (CPython TimeRE) to the regex
   y: \d\d   m: 1[0-2]|0[1-9]|[1-9]   d: 3[01]|[12]\d|0[1-9]|[1-9]
   H: 2[0-3]|[0-1]\d|\d               M: [0-5]\d|\d
   applied to the CONCATENATED date+hour string, so a field may take one or
   two digits, with backtracking over the alternatives in this order. -/

def digitBetween (lo hi : Nat) (c : Char) : Bool :=
  isDigitChar c && lo ≤ digitVal c && digitVal c ≤ hi

/- One two-digit alternative of a field pattern. -/
def reAlt2 (lo1 hi1 lo2 hi2 : Nat) : List Char → Option (Nat × List Char)
  | a :: b :: rest =>
    if digitBetween lo1 hi1 a && digitBetween lo2 hi2 b then
      some (digitVal a * 10 + digitVal b, rest)
    else none
  | _ => none

/- One one-digit alternative of a field pattern. -/
def reAlt1 (lo hi : Nat) : List Char → Option (Nat × List Char)
  | a :: rest => if digitBetween lo hi a then some (digitVal a, rest) else none
  | _ => none

def monthAlts : List (List Char → Option (Nat × List Char)) :=
  [reAlt2 1 1 0 2, reAlt2 0 0 1 9, reAlt1 1 9]

def dayAlts : List (List Char → Option (Nat × List Char)) :=
  [reAlt2 3 3 0 1, reAlt2 1 2 0 9, reAlt2 0 0 1 9, reAlt1 1 9]

def hourAlts : List (List Char → Option (Nat × List Char)) :=
  [reAlt2 2 2 0 3, reAlt2 0 1 0 9, reAlt1 0 9]

def minuteAlts : List (List Char → Option (Nat × List Char)) :=
  [reAlt2 0 5 0 9, reAlt1 0 9]

/- The regex engine's backtracking: try a field's alternatives in order;
   if one matches but the rest of the pattern fails, fall through to the
   next alternative. -/
def tryAlts {β : Type} (cs : List Char) (k : Nat → List Char → Option β) :
    List (List Char → Option (Nat × List Char)) → Option β
  | [] => none
  | alt :: rest =>
    match alt cs with
    | some (v, cs2) =>
      match k v cs2 with
      | some b => some b
      | none => tryAlts cs k rest
    | none => tryAlts cs k rest

/- First match of the whole pattern in backtracking order, with the
   unconsumed remainder; no end anchor, as with re.match. -/
def strptimeMatch (cs : List Char) :
    Option (Nat × Nat × Nat × Nat × Nat × List Char) :=
  match reAlt2 0 9 0 9 cs with
  | none => none
  | some (y, r1) =>
    tryAlts r1 (fun m r2 =>
      tryAlts r2 (fun d r3 =>
        tryAlts r3 (fun h r4 =>
          tryAlts r4 (fun mi r5 =>
            some (y, m, d, h, mi, r5)) minuteAlts) hourAlts) dayAlts) monthAlts

/- Full datetime.strptime(s, '%y%m%d%H%M'): the regex match, the
   unconverted-data-remains check, the 00-68 maps to 20xx year pivot, and
   the day-of-month validation done by the datetime constructor. -/
def strptimeYmdHM (cs : List Char) : Option DateTime :=
  match strptimeMatch cs with
  | none => none
  | some (y, m, d, h, mi, rest) =>
    match rest with
    | _ :: _ => none
    | [] =>
      let yy := if y ≤ 68 then 2000 + y else 1900 + y
      if d ≤ daysInMonth yy m then some ⟨dayNumber yy m d, h * 60 + mi⟩
      else none

/- datetime.strptime(date + hour, '%y%m%d%H%M') for one event: the date
   prefix and the time token are concatenated before parsing, so field
   widths can shift across the boundary. -/
def parseEvent (dc tc : List Char) : Option DateTime := strptimeYmdHM (dc ++ tc)

/- Python str.split(' '): split on every single space, keeping empty pieces;
   splitting the empty string yields one empty token. -/
def splitSpaces : List Char → List (List Char)
  | [] => [[]]
  | c :: rest =>
    if c = ' ' then [] :: splitSpaces rest
    else
      match splitSpaces rest with
      | [] => [[c]]
      | t :: ts => (c :: t) :: ts

/- str.startswith('#') as in the comment test of the reader loop. -/
def strHash (s : String) : Bool :=
  match s.data with
  | c :: _ => c = '#'
  | [] => false

/- hours[2:], the captured comment text. -/
def drop2 (s : String) : String := String.mk (s.data.drop 2)

/- Convert every token of a block, failing on the first bad one
   (the strptime call inside the per-hour loop). -/
def parseTokens (dc : List Char) : List (List Char) → Option (List DateTime)
  | [] => some []
  | t :: ts =>
    match parseEvent dc t, parseTokens dc ts with
    | some e, some es => some (e :: es)
    | _, _ => none

/- hours.split(' ') reversed, then parsed with the block's date. -/
def finishTokens (dc : List Char) (timeLine : String) : Option (List DateTime) :=
  parseTokens dc (splitSpaces timeLine.data).reverse

/- The reader loop as a line-at-a-time state machine.  readline at EOF
   returns the empty string in Python; here EOF is the end of the line list.
   atDate: about to read a date line (break on EOF);
   afterDate: date read, next line is a comment or the time list;
   afterComment: comment captured, next line is the time list;
   skipLine: consume the blank separator line. -/
inductive PMode where
  | atDate : PMode
  | afterDate : List Char → PMode
  | afterComment : List Char → String → PMode
  | skipLine : PMode

def parseLines : PMode → List String → Except PyErr (List DateTime × List String)
  | .atDate, [] => .ok ([], [])
  | .atDate, l :: ls => parseLines (.afterDate (l.data.take 6)) ls
  | .afterDate dc, [] =>
    match finishTokens dc "" with
    | none => .error .valueError
    | some evs => .ok (evs, [""])
  | .afterDate dc, l :: ls =>
    if strHash l then parseLines (.afterComment dc (drop2 l)) ls
    else
      match finishTokens dc l with
      | none => .error .valueError
      | some evs =>
        match parseLines .skipLine ls with
        | .error e => .error e
        | .ok (es, cs) => .ok (evs ++ es, "" :: cs)
  | .afterComment dc c, [] =>
    match finishTokens dc "" with
    | none => .error .valueError
    | some evs => .ok (evs, [c])
  | .afterComment dc c, l :: ls =>
    match finishTokens dc l with
    | none => .error .valueError
    | some evs =>
      match parseLines .skipLine ls with
      | .error e => .error e
      | .ok (es, cs) => .ok (evs ++ es, c :: cs)
  | .skipLine, [] => .ok ([], [])
  | .skipLine, _ :: ls => parseLines .atDate ls

/- Whole-file parse: run the reader loop, then reverse both accumulated
   sequences (lines 87-88 of the script). -/
def parseFile (lines : List String) : Except PyErr (List DateTime × List String) :=
  match parseLines .atDate lines with
  | .error e => .error e
  | .ok (es, cs) => .ok (es.reverse, cs.reverse)

/- Statistics engine. -/

def AVERAGE_PERIOD : Nat := 7

/- deltas = [y - x for x,y in zip(events, events[1:])], in minutes. -/
def deltasOf (events : List DateTime) : List Int :=
  List.zipWith (fun x y => toMin y - toMin x) events events.tail

/- collections.Counter key order: first-seen (insertion) order. -/
def dedupFirst {α : Type} [DecidableEq α] : List α → List α
  | [] => []
  | a :: as => a :: (dedupFirst as).filter (fun b => b ≠ a)

/- list(Counter(event_dates).values()): per-date counts, first-seen order. -/
def eventsPerDayOf (dates : List Nat) : List Nat :=
  (dedupFirst dates).map (fun d => dates.count d)

/- The long-nights test of the scatter loop: events[i-1] wraps to the last
   element when i = 0 (Python negative indexing); flag when the gap is at
   least 6 hours (360 min) and the clock time is strictly between 06:30
   (390 min) and 08:00 (480 min). -/
def long_night_flag (events : List DateTime) (i : Nat) : Bool :=
  match events[i]? with
  | none => false
  | some e =>
    let p := if i = 0 then events.getLastD e else events.getD (i - 1) e
    decide (360 ≤ toMin e - toMin p) && decide (390 < e.minute) && decide (e.minute < 480)

/- The (date, time) markers appended for flagged events. -/
def long_nights (events : List DateTime) : List (Nat × Nat) :=
  (List.range events.length).filterMap fun i =>
    if long_night_flag events i then (events[i]?).map (fun e => (e.day, e.minute)) else none

/- Python min/max over a nonempty list (0 is never used: callers check). -/
def listMinI : List Int → Int
  | [] => 0
  | x :: xs => xs.foldl min x

def listMaxI : List Int → Int
  | [] => 0
  | x :: xs => xs.foldl max x

/- The trailing moving-average loop: for each index, sum the counts at
   indices max(0, index+1-7) .. index and divide by the actual window
   length min(7, index+1). -/
def average_over_period (epd : List Nat) : List ℚ :=
  (List.range epd.length).map fun index =>
    let lo := index + 1 - AVERAGE_PERIOD
    let total := ((List.range' lo (index + 1 - lo)).map (fun j => epd.getD j 0)).sum
    (total : ℚ) / ((min AVERAGE_PERIOD (index + 1) : Nat) : ℚ)

/- Everything the script derives after parsing (stats plus plotted series).
   variance is the square of the printed standard deviation; the script
   prints sqrt(variance). -/
structure Stats where
  today : Nat
  daysRecorded : Nat
  eventsRecorded : Nat
  minPerDay : Nat
  maxPerDay : Nat
  average : ℚ
  median : Nat
  midrange : ℚ
  variance : ℚ
  countsPerDay : List Nat
  uniqueDates : List Nat
  commentsTrimmed : List String
  countsNormalized : List ℚ
  averageOverPeriod : List ℚ
  averageOverPeriodNormalized : List ℚ
  deltas : List Int
  deltaMinVal : Int
  deltaMinDate : Nat
  deltaMaxVal : Int
  deltaMaxDate : Nat
  deltaAverage : ℚ
  longNightsList : List (Nat × Nat)
  longNightsCount : Nat
deriving DecidableEq, Repr, Inhabited

/- Lines 91-188 of the script, assuming no step raises (pipeline checks
   the failure conditions in execution order before calling this). -/
def buildStats (events : List DateTime) (comments : List String) : Stats :=
  let eventDates := events.map DateTime.day
  let deltas := deltasOf events
  let epdAll := eventsPerDayOf eventDates
  let udAll := dedupFirst eventDates
  let today := epdAll.getLastD 0
  let epd := epdAll.dropLast
  let sortedCounts := List.insertionSort (fun a b => a ≤ b) epd
  let n := epd.length
  let avg : ℚ := (epd.sum : ℚ) / (n : ℚ)
  let med := sortedCounts.getD (n / 2) 0
  let dmin := listMinI deltas
  let dmax := listMaxI deltas
  { today := today
    daysRecorded := n
    eventsRecorded := epd.sum
    minPerDay := sortedCounts.getD 0 0
    maxPerDay := sortedCounts.getLastD 0
    average := avg
    median := med
    midrange := ((sortedCounts.getD 0 0 : ℚ) + (sortedCounts.getLastD 0 : ℚ)) / 2
    variance := (epd.map (fun c => ((c : ℚ) - avg) ^ 2)).sum / (n : ℚ)
    countsPerDay := epd
    uniqueDates := udAll.dropLast
    commentsTrimmed := comments.dropLast
    countsNormalized := epd.map (fun c => (c : ℚ) / ((med : ℚ) * 2))
    averageOverPeriod := average_over_period epd
    averageOverPeriodNormalized := (average_over_period epd).map (fun q => q / ((med : ℚ) * 2))
    deltas := deltas
    deltaMinVal := dmin
    deltaMinDate := (events.getD (deltas.indexOf dmin) default).day
    deltaMaxVal := dmax
    deltaMaxDate := (events.getD (deltas.indexOf dmax) default).day
    deltaAverage := (deltas.sum : ℚ) / (deltas.length : ℚ)
    longNightsList := long_nights events
    longNightsCount := (long_nights events).length }

/- The full events_per_day list (before the today pop). -/
def epdAllOf (events : List DateTime) : List Nat :=
  eventsPerDayOf (events.map DateTime.day)

/- The median the script computes on the trimmed counts (line 135). -/
def medTrimmed (events : List DateTime) : Nat :=
  (List.insertionSort (fun a b => a ≤ b) (epdAllOf events).dropLast).getD
    ((epdAllOf events).dropLast.length / 2) 0

/- The statistics phase with the script's failure points, in execution
   order: events_per_day.pop() on an empty list (IndexError), comments.pop()
   on an empty list (IndexError), sum/len of an empty trimmed list
   (ZeroDivisionError), normalization by median*2 when median = 0
   (ZeroDivisionError), min/max of an empty deltas list (ValueError). -/
def pipeline (events : List DateTime) (comments : List String) : Except PyErr Stats :=
  if epdAllOf events = [] then .error .indexError
  else if comments = [] then .error .indexError
  else if (epdAllOf events).dropLast = [] then .error .zeroDivisionError
  else if medTrimmed events = 0 then .error .zeroDivisionError
  else if deltasOf events = [] then .error .valueError
  else .ok (buildStats events comments)

/- The whole script: parse data.txt, then derive the statistics. -/
def run (lines : List String) : Except PyErr Stats :=
  match parseFile lines with
  | .error e => .error e
  | .ok (es, cs) => pipeline es cs

def runOk {α : Type} (r : Except PyErr α) : Bool :=
  match r with
  | .ok _ => true
  | .error _ => false

def statsOf (r : Except PyErr Stats) : Stats :=
  match r with
  | .ok s => s
  | .error _ => default

instance {ε α : Type} [DecidableEq ε] [DecidableEq α] : DecidableEq (Except ε α) :=
  fun a b =>
    match a, b with
    | .ok x, .ok y => if h : x = y then .isTrue (by simp [h]) else .isFalse (by simp [h])
    | .error x, .error y => if h : x = y then .isTrue (by simp [h]) else .isFalse (by simp [h])
    | .ok _, .error _ => .isFalse (by simp)
    | .error _, .ok _ => .isFalse (by simp)

/- Inversion of the statistics phase: a successful pipeline run returns
   exactly buildStats, and success is equivalent to all checks passing. -/

theorem pipeline_inv (evs : List DateTime) (cms : List String) :
    (epdAllOf evs ≠ [] ∧ cms ≠ [] ∧ (epdAllOf evs).dropLast ≠ [] ∧
      medTrimmed evs ≠ 0 ∧ deltasOf evs ≠ [] ∧
      pipeline evs cms = .ok (buildStats evs cms)) ∨
    runOk (pipeline evs cms) = false := by
  unfold pipeline
  by_cases h1 : epdAllOf evs = []
  · right; simp only [if_pos h1]; rfl
  simp only [if_neg h1]
  by_cases h2 : cms = []
  · right; simp only [if_pos h2]; rfl
  simp only [if_neg h2]
  by_cases h3 : (epdAllOf evs).dropLast = []
  · right; simp only [if_pos h3]; rfl
  simp only [if_neg h3]
  by_cases h4 : medTrimmed evs = 0
  · right; simp only [if_pos h4]; rfl
  simp only [if_neg h4]
  by_cases h5 : deltasOf evs = []
  · right; simp only [if_pos h5]; rfl
  simp only [if_neg h5]
  exact Or.inl ⟨h1, h2, h3, h4, h5, by trivial⟩

theorem pipeline_ok_elim {evs : List DateTime} {cms : List String}
    (h : runOk (pipeline evs cms) = true) :
    pipeline evs cms = .ok (buildStats evs cms) := by
  rcases pipeline_inv evs cms with ⟨_, _, _, _, _, hok⟩ | hbad
  · exact hok
  · rw [h] at hbad; cases hbad

theorem statsOf_pipeline {evs : List DateTime} {cms : List String}
    (h : runOk (pipeline evs cms) = true) :
    statsOf (pipeline evs cms) = buildStats evs cms := by
  rw [pipeline_ok_elim h]; rfl

theorem pipeline_ok_checks {evs : List DateTime} {cms : List String}
    (h : runOk (pipeline evs cms) = true) :
    epdAllOf evs ≠ [] ∧ cms ≠ [] ∧ (epdAllOf evs).dropLast ≠ [] ∧
      medTrimmed evs ≠ 0 ∧ deltasOf evs ≠ [] := by
  rcases pipeline_inv evs cms with ⟨a, b, c, d, e, _⟩ | hbad
  · exact ⟨a, b, c, d, e⟩
  · rw [h] at hbad; cases hbad

theorem pipeline_ok_intro {evs : List DateTime} {cms : List String}
    (h1 : epdAllOf evs ≠ []) (h2 : cms ≠ [])
    (h3 : (epdAllOf evs).dropLast ≠ [])
    (h4 : medTrimmed evs ≠ 0) (h5 : deltasOf evs ≠ []) :
    runOk (pipeline evs cms) = true := by
  unfold pipeline
  simp only [if_neg h1, if_neg h2, if_neg h3, if_neg h4, if_neg h5]
  rfl

/-- C6: an event other than the first is emitted as a long-quiet-interval
marker if and only if its timestamp minus the previous event's timestamp is
at least 6 hours (360 minutes, inclusive) and its clock time is strictly
after 06:30 (390 minutes) and strictly before 08:00 (480 minutes). -/
theorem claim6_long_quiet_flag_iff (events : List DateTime) (i : Nat)
    (h1 : 1 ≤ i) (h2 : i < events.length) :
    long_night_flag events i = true ↔
      (360 ≤ toMin events[i] - toMin events[i - 1] ∧
        390 < events[i].minute ∧ events[i].minute < 480) := by
  have h0 : ¬ i = 0 := by omega
  have h3 : i - 1 < events.length := by omega
  simp only [long_night_flag, List.getElem?_eq_getElem h2, if_neg h0,
    List.getD_eq_getElem events _ h3, Bool.and_eq_true, decide_eq_true_eq]
  omega

theorem claim6_long_quiet_flag_iff_witness :
    long_night_flag [⟨0, 1380⟩, ⟨1, 420⟩] 1 = true ∧
      long_night_flag [⟨0, 1380⟩, ⟨1, 540⟩] 1 = false := by
  constructor
  · exact (claim6_long_quiet_flag_iff [⟨0, 1380⟩, ⟨1, 420⟩] 1 (by decide)
      (by decide)).mpr (by decide)
  · decide

/-- C7: for a chronologically non-decreasing, non-empty event sequence, the
first event is never emitted as a long-quiet-interval marker, even though
the scan at index 0 compares against the wrapped (last) element. -/
theorem claim7_first_event_not_flagged (events : List DateTime)
    (hne : events ≠ [])
    (hchron : events.Pairwise (fun a b => toMin a ≤ toMin b)) :
    long_night_flag events 0 = false := by
  match events, hne with
  | e :: rest, _ =>
    have hp : ∀ b ∈ rest, toMin e ≤ toMin b := (List.pairwise_cons.mp hchron).1
    have hne2 : (e :: rest) ≠ [] := by simp
    have hmem : (e :: rest).getLast hne2 ∈ e :: rest := List.getLast_mem hne2
    have hd : (e :: rest).getLastD e = (e :: rest).getLast hne2 := by
      rw [List.getLastD_eq_getLast?, List.getLast?_eq_getLast _ hne2]
      rfl
    have hle : toMin e ≤ toMin ((e :: rest).getLast hne2) := by
      rcases List.mem_cons.mp hmem with h | h
      · rw [h]
      · exact hp _ h
    have hgap : ¬ (360 ≤ toMin e - toMin ((e :: rest).getLast hne2)) := by omega
    simp only [long_night_flag, List.getElem?_cons_zero, if_pos rfl, hd]
    simp [hgap]

theorem claim7_first_event_not_flagged_witness :
    long_night_flag [⟨0, 390⟩, ⟨0, 420⟩] 0 = false :=
  claim7_first_event_not_flagged [⟨0, 390⟩, ⟨0, 420⟩] (by decide) (by decide)

/- Field accessors of buildStats, unfolded. -/

theorem buildStats_countsPerDay (evs : List DateTime) (cms : List String) :
    (buildStats evs cms).countsPerDay = (epdAllOf evs).dropLast := rfl

theorem buildStats_today (evs : List DateTime) (cms : List String) :
    (buildStats evs cms).today = (epdAllOf evs).getLastD 0 := rfl

theorem buildStats_median (evs : List DateTime) (cms : List String) :
    (buildStats evs cms).median = medTrimmed evs := rfl

theorem buildStats_deltas (evs : List DateTime) (cms : List String) :
    (buildStats evs cms).deltas = deltasOf evs := rfl

theorem buildStats_deltaMinVal (evs : List DateTime) (cms : List String) :
    (buildStats evs cms).deltaMinVal = listMinI (deltasOf evs) := rfl

theorem buildStats_deltaMinDate (evs : List DateTime) (cms : List String) :
    (buildStats evs cms).deltaMinDate =
      (evs.getD ((deltasOf evs).indexOf (listMinI (deltasOf evs))) default).day := rfl

theorem buildStats_deltaMaxVal (evs : List DateTime) (cms : List String) :
    (buildStats evs cms).deltaMaxVal = listMaxI (deltasOf evs) := rfl

theorem buildStats_deltaMaxDate (evs : List DateTime) (cms : List String) :
    (buildStats evs cms).deltaMaxDate =
      (evs.getD ((deltasOf evs).indexOf (listMaxI (deltasOf evs))) default).day := rfl

theorem buildStats_averageOverPeriod (evs : List DateTime) (cms : List String) :
    (buildStats evs cms).averageOverPeriod =
      average_over_period ((epdAllOf evs).dropLast) := rfl

theorem buildStats_commentsTrimmed (evs : List DateTime) (cms : List String) :
    (buildStats evs cms).commentsTrimmed = cms.dropLast := rfl

theorem buildStats_uniqueDates (evs : List DateTime) (cms : List String) :
    (buildStats evs cms).uniqueDates = (dedupFirst (evs.map DateTime.day)).dropLast := rfl

/- dedupFirst is a nodup list with the same members as the original,
   hence a permutation of Mathlib's dedup. -/

theorem mem_dedupFirst {α : Type} [DecidableEq α] {x : α} :
    ∀ {l : List α}, x ∈ dedupFirst l ↔ x ∈ l := by
  intro l
  induction l with
  | nil => simp [dedupFirst]
  | cons a as ih =>
    by_cases hxa : x = a <;>
      simp [dedupFirst, List.mem_filter, hxa, ih]

theorem nodup_dedupFirst {α : Type} [DecidableEq α] : ∀ (l : List α), (dedupFirst l).Nodup
  | [] => by simp [dedupFirst]
  | a :: as => by
    rw [dedupFirst, List.nodup_cons]
    refine ⟨?_, (nodup_dedupFirst as).filter _⟩
    intro hmem
    simp [List.mem_filter] at hmem

theorem dedupFirst_perm_dedup {α : Type} [DecidableEq α] (l : List α) :
    List.Perm (dedupFirst l) l.dedup :=
  (List.perm_ext_iff_of_nodup (nodup_dedupFirst l) l.nodup_dedup).2
    (fun a => by rw [mem_dedupFirst, List.mem_dedup])

/- Total events equal the sum of the per-day counts. -/
theorem sum_eventsPerDayOf (dates : List Nat) : (eventsPerDayOf dates).sum = dates.length := by
  unfold eventsPerDayOf
  have hp : List.Perm ((dedupFirst dates).map (fun d => dates.count d))
      (dates.dedup.map (fun d => dates.count d)) :=
    (dedupFirst_perm_dedup dates).map _
  rw [hp.sum_eq]
  exact List.sum_map_count_dedup_eq_length dates

/-- C8: for every input the pipeline processes to completion, the sum of the
trimmed per-day counts plus the today count equals the number of events, and
before the trim the total event count equals the sum of all day-bucket
counts. -/
theorem claim8_count_conservation (evs : List DateTime) (cms : List String)
    (h : runOk (pipeline evs cms) = true) :
    (statsOf (pipeline evs cms)).countsPerDay.sum + (statsOf (pipeline evs cms)).today
        = evs.length ∧
      (epdAllOf evs).sum = evs.length := by
  have h2 : (epdAllOf evs).sum = evs.length := by
    unfold epdAllOf
    rw [sum_eventsPerDayOf, List.length_map]
  refine ⟨?_, h2⟩
  rw [statsOf_pipeline h, buildStats_countsPerDay, buildStats_today]
  obtain ⟨h1, -, -, -, -⟩ := pipeline_ok_checks h
  rw [← h2]
  calc (epdAllOf evs).dropLast.sum + (epdAllOf evs).getLastD 0
      = ((epdAllOf evs).dropLast ++ [(epdAllOf evs).getLast h1]).sum := by
        rw [List.sum_append, List.sum_cons, List.sum_nil,
          List.getLastD_eq_getLast?, List.getLast?_eq_getLast _ h1, Option.getD_some]
        omega
    _ = (epdAllOf evs).sum := by rw [List.dropLast_append_getLast h1]

theorem claim8_count_conservation_witness :
    runOk (pipeline [⟨0, 360⟩, ⟨1, 420⟩] ["", ""]) = true ∧
      (statsOf (pipeline [⟨0, 360⟩, ⟨1, 420⟩] ["", ""])).countsPerDay.sum +
        (statsOf (pipeline [⟨0, 360⟩, ⟨1, 420⟩] ["", ""])).today = 2 := by
  refine ⟨by decide, ?_⟩
  exact (claim8_count_conservation [⟨0, 360⟩, ⟨1, 420⟩] ["", ""] (by decide)).1

/-- C4: whenever the pipeline succeeds, the reported median equals the
element at 0-based index len/2 of any ascending-sorted permutation of the
trimmed per-day counts (the lower-median convention for even length). -/
theorem claim4_median_lower (evs : List DateTime) (cms : List String)
    (h : runOk (pipeline evs cms) = true)
    (m : List Nat)
    (hperm : m.Perm (statsOf (pipeline evs cms)).countsPerDay)
    (hsort : List.Sorted (fun a b : Nat => a ≤ b) m) :
    (statsOf (pipeline evs cms)).median = m.getD (m.length / 2) 0 := by
  rw [statsOf_pipeline h] at hperm ⊢
  rw [buildStats_countsPerDay] at hperm
  rw [buildStats_median]
  have hm : m = List.insertionSort (fun a b : Nat => a ≤ b) (epdAllOf evs).dropLast := by
    refine List.eq_of_perm_of_sorted ?_ hsort (List.sorted_insertionSort _ _)
    exact hperm.trans (List.perm_insertionSort _ _).symm
  have hlen : m.length = (epdAllOf evs).dropLast.length := hperm.length_eq
  rw [medTrimmed, ← hm, hlen]

theorem claim4_median_lower_witness :
    runOk (pipeline [⟨0, 0⟩, ⟨0, 60⟩, ⟨1, 0⟩, ⟨1, 1⟩, ⟨1, 2⟩, ⟨1, 3⟩, ⟨2, 0⟩]
        ["", "", ""]) = true ∧
      (statsOf (pipeline [⟨0, 0⟩, ⟨0, 60⟩, ⟨1, 0⟩, ⟨1, 1⟩, ⟨1, 2⟩, ⟨1, 3⟩, ⟨2, 0⟩]
        ["", "", ""])).median = 4 := by
  refine ⟨by decide, ?_⟩
  exact claim4_median_lower [⟨0, 0⟩, ⟨0, 60⟩, ⟨1, 0⟩, ⟨1, 1⟩, ⟨1, 2⟩, ⟨1, 3⟩, ⟨2, 0⟩]
    ["", "", ""] (by decide) [2, 4] (by decide) (by decide)

theorem getD_map_range (n : Nat) (f : Nat → ℚ) (i : Nat) (hi : i < n) :
    ((List.range n).map f).getD i 0 = f i := by
  rw [List.getD_eq_getElem _ _ (by simpa using hi), List.getElem_map, List.getElem_range]

/- The moving-average window, written as a slice of the count list. -/
theorem slice_window (l : List Nat) (a b : Nat) (hab : a ≤ b) (hb : b ≤ l.length) :
    (List.range' a (b - a)).map (fun j => l.getD j 0) = (l.take b).drop a := by
  apply List.ext_getElem
  · simp only [List.length_map, List.length_range', List.length_drop, List.length_take]
    omega
  · intro i h1 h2
    simp only [List.length_map, List.length_range'] at h1
    have hia : a + i < l.length := by omega
    rw [List.getElem_map, List.getElem_range', one_mul,
      List.getD_eq_getElem l 0 hia, List.getElem_drop, List.getElem_take]

/-- C5: for every trimmed per-day count series and window size 7, the
trailing moving average at index i is the sum of the counts at indices
max(0, i+1-7)..i divided by the actual window length; the value at index 0
is the first count exactly; every window at index i with i at least 6 has
exactly 7 values; and the output has the same length as the input. -/
theorem claim5_moving_average (epd : List Nat) :
    (average_over_period epd).length = epd.length ∧
      (∀ i, i < epd.length →
        (average_over_period epd).getD i 0 =
          (((epd.take (i + 1)).drop (i + 1 - AVERAGE_PERIOD)).sum : ℚ) /
            (((epd.take (i + 1)).drop (i + 1 - AVERAGE_PERIOD)).length : ℚ)) ∧
      (0 < epd.length →
        (average_over_period epd).getD 0 0 = (epd.getD 0 0 : ℚ)) ∧
      (∀ i, AVERAGE_PERIOD - 1 ≤ i → i < epd.length →
        ((epd.take (i + 1)).drop (i + 1 - AVERAGE_PERIOD)).length = AVERAGE_PERIOD) := by
  have hlen : (average_over_period epd).length = epd.length := by
    simp [average_over_period]
  have hwin : ∀ i, i < epd.length →
      ((epd.take (i + 1)).drop (i + 1 - AVERAGE_PERIOD)).length =
        min AVERAGE_PERIOD (i + 1) := by
    intro i hi
    simp only [List.length_drop, List.length_take]
    omega
  have hmain : ∀ i, i < epd.length →
      (average_over_period epd).getD i 0 =
        (((epd.take (i + 1)).drop (i + 1 - AVERAGE_PERIOD)).sum : ℚ) /
          (((epd.take (i + 1)).drop (i + 1 - AVERAGE_PERIOD)).length : ℚ) := by
    intro i hi
    unfold average_over_period
    rw [getD_map_range epd.length _ i hi]
    dsimp only
    rw [slice_window epd (i + 1 - AVERAGE_PERIOD) (i + 1) (by omega) (by omega)]
    rw [hwin i hi]
  refine ⟨hlen, hmain, ?_, ?_⟩
  · intro h0
    rw [hmain 0 h0]
    match epd, h0 with
    | x :: xs, _ => simp [AVERAGE_PERIOD]
  · intro i h6 hi
    simp only [List.length_drop, List.length_take]
    omega

theorem claim5_moving_average_witness :
    (average_over_period [4, 2, 6]).length = 3 ∧
      (average_over_period [4, 2, 6]).getD 1 0 =
        (((([4, 2, 6] : List Nat).take 2).drop 0).sum : ℚ) /
          (((([4, 2, 6] : List Nat).take 2).drop 0).length : ℚ) ∧
      (average_over_period [4, 2, 6]).getD 0 0 = (([4, 2, 6].getD 0 0 : Nat) : ℚ) := by
  refine ⟨(claim5_moving_average [4, 2, 6]).1, ?_, ?_⟩
  · exact (claim5_moving_average [4, 2, 6]).2.1 1 (by decide)
  · exact (claim5_moving_average [4, 2, 6]).2.2.1 (by decide)

/- Python min()/max() over a nonempty list, as a fold. -/

theorem foldl_min_le (xs : List Int) : ∀ (x : Int),
    xs.foldl min x ≤ x ∧ ∀ y ∈ xs, xs.foldl min x ≤ y := by
  induction xs with
  | nil => intro x; simp
  | cons y ys ih =>
    intro x
    have IH := ih (min x y)
    refine ⟨le_trans IH.1 (min_le_left x y), ?_⟩
    intro z hz
    rcases List.mem_cons.mp hz with h | h
    · subst h; exact le_trans IH.1 (min_le_right x z)
    · exact IH.2 z h

theorem foldl_min_mem (xs : List Int) : ∀ (x : Int), xs.foldl min x ∈ x :: xs := by
  induction xs with
  | nil => intro x; simp
  | cons y ys ih =>
    intro x
    have IH := ih (min x y)
    rw [List.foldl_cons]
    rcases List.mem_cons.mp IH with h | h
    · rw [h]
      rcases min_choice x y with hc | hc <;> rw [hc] <;> simp
    · exact List.mem_cons.mpr (Or.inr (List.mem_cons.mpr (Or.inr h)))

theorem le_foldl_max (xs : List Int) : ∀ (x : Int),
    x ≤ xs.foldl max x ∧ ∀ y ∈ xs, y ≤ xs.foldl max x := by
  induction xs with
  | nil => intro x; simp
  | cons y ys ih =>
    intro x
    have IH := ih (max x y)
    refine ⟨le_trans (le_max_left x y) IH.1, ?_⟩
    intro z hz
    rcases List.mem_cons.mp hz with h | h
    · subst h; exact le_trans (le_max_right x z) IH.1
    · exact IH.2 z h

theorem foldl_max_mem (xs : List Int) : ∀ (x : Int), xs.foldl max x ∈ x :: xs := by
  induction xs with
  | nil => intro x; simp
  | cons y ys ih =>
    intro x
    have IH := ih (max x y)
    rw [List.foldl_cons]
    rcases List.mem_cons.mp IH with h | h
    · rw [h]
      rcases max_choice x y with hc | hc <;> rw [hc] <;> simp
    · exact List.mem_cons.mpr (Or.inr (List.mem_cons.mpr (Or.inr h)))

theorem listMinI_mem {l : List Int} (h : l ≠ []) : listMinI l ∈ l := by
  match l, h with
  | x :: xs, _ => exact foldl_min_mem xs x

theorem listMinI_le {l : List Int} (h : l ≠ []) : ∀ y ∈ l, listMinI l ≤ y := by
  match l, h with
  | x :: xs, _ =>
    intro y hy
    rcases List.mem_cons.mp hy with hh | hh
    · subst hh; exact (foldl_min_le xs y).1
    · exact (foldl_min_le xs x).2 y hh

theorem listMaxI_mem {l : List Int} (h : l ≠ []) : listMaxI l ∈ l := by
  match l, h with
  | x :: xs, _ => exact foldl_max_mem xs x

theorem le_listMaxI {l : List Int} (h : l ≠ []) : ∀ y ∈ l, y ≤ listMaxI l := by
  match l, h with
  | x :: xs, _ =>
    intro y hy
    rcases List.mem_cons.mp hy with hh | hh
    · subst hh; exact (le_foldl_max xs y).1
    · exact (le_foldl_max xs x).2 y hh

/- The deltas list, elementwise. -/

theorem deltasOf_length (evs : List DateTime) :
    (deltasOf evs).length = evs.length - 1 := by
  simp [deltasOf, List.length_zipWith, List.length_tail]

theorem deltasOf_getElem (evs : List DateTime) (j : Nat)
    (h : j < (deltasOf evs).length) :
    (deltasOf evs)[j] =
      toMin (evs.getD (j + 1) default) - toMin (evs.getD j default) := by
  have hlen : (deltasOf evs).length = evs.length - 1 := deltasOf_length evs
  have hj1 : j + 1 < evs.length := by omega
  have hj : j < evs.length := by omega
  have hjt : j < evs.tail.length := by rw [List.length_tail]; omega
  unfold deltasOf
  rw [List.getElem_zipWith, List.getElem_tail,
    List.getD_eq_getElem _ _ hj1, List.getD_eq_getElem _ _ hj]

/-- C2 counterexample: two events, 2018-day-0 06:00 and day-1 08:00; the
single delta (1560 min) is closed by the later event on day 1, but the
script reports day 0 (the earlier event of the pair) for both the min and
the max delta, refuting the claim that the date of the closing (later)
event is reported. -/
theorem claim2_counterexample :
    runOk (pipeline [⟨0, 360⟩, ⟨1, 480⟩] ["", ""]) = true ∧
      (statsOf (pipeline [⟨0, 360⟩, ⟨1, 480⟩] ["", ""])).deltas = [1560] ∧
      (statsOf (pipeline [⟨0, 360⟩, ⟨1, 480⟩] ["", ""])).deltaMinDate = 0 ∧
      (statsOf (pipeline [⟨0, 360⟩, ⟨1, 480⟩] ["", ""])).deltaMaxDate = 0 ∧
      (0 : Nat) ≠ 1 := by
  refine ⟨by decide, by decide, by decide, by decide, by decide⟩

/-- C2 amended: for every successful pipeline run, each extreme-delta
summary field reports the date of the chronologically EARLIER event of the
first adjacent pair attaining that extreme (the event that opened the gap,
events[deltas.index(min(deltas))]), not the event that closed it. -/
theorem claim2_delta_extreme_dates (evs : List DateTime) (cms : List String)
    (h : runOk (pipeline evs cms) = true) :
    (∃ i, i + 1 < evs.length ∧
      (statsOf (pipeline evs cms)).deltaMinVal =
        toMin (evs.getD (i + 1) default) - toMin (evs.getD i default) ∧
      (∀ j, j + 1 < evs.length →
        (statsOf (pipeline evs cms)).deltaMinVal ≤
          toMin (evs.getD (j + 1) default) - toMin (evs.getD j default)) ∧
      (statsOf (pipeline evs cms)).deltaMinDate = (evs.getD i default).day) ∧
    (∃ i, i + 1 < evs.length ∧
      (statsOf (pipeline evs cms)).deltaMaxVal =
        toMin (evs.getD (i + 1) default) - toMin (evs.getD i default) ∧
      (∀ j, j + 1 < evs.length →
        toMin (evs.getD (j + 1) default) - toMin (evs.getD j default) ≤
          (statsOf (pipeline evs cms)).deltaMaxVal) ∧
      (statsOf (pipeline evs cms)).deltaMaxDate = (evs.getD i default).day) := by
  obtain ⟨-, -, -, -, hD⟩ := pipeline_ok_checks h
  rw [statsOf_pipeline h, buildStats_deltaMinVal, buildStats_deltaMinDate,
    buildStats_deltaMaxVal, buildStats_deltaMaxDate]
  have hlen : (deltasOf evs).length = evs.length - 1 := deltasOf_length evs
  have hlenpos : 0 < (deltasOf evs).length := List.length_pos.mpr hD
  constructor
  · have hmem : listMinI (deltasOf evs) ∈ deltasOf evs := listMinI_mem hD
    have hidx : (deltasOf evs).indexOf (listMinI (deltasOf evs)) <
        (deltasOf evs).length := List.indexOf_lt_length.2 hmem
    refine ⟨(deltasOf evs).indexOf (listMinI (deltasOf evs)), by omega, ?_, ?_, ?_⟩
    · rw [← deltasOf_getElem evs _ hidx, List.getElem_indexOf]
    · intro j hj
      have hj' : j < (deltasOf evs).length := by omega
      rw [← deltasOf_getElem evs j hj']
      exact listMinI_le hD _ (List.getElem_mem hj')
    · rfl
  · have hmem : listMaxI (deltasOf evs) ∈ deltasOf evs := listMaxI_mem hD
    have hidx : (deltasOf evs).indexOf (listMaxI (deltasOf evs)) <
        (deltasOf evs).length := List.indexOf_lt_length.2 hmem
    refine ⟨(deltasOf evs).indexOf (listMaxI (deltasOf evs)), by omega, ?_, ?_, ?_⟩
    · rw [← deltasOf_getElem evs _ hidx, List.getElem_indexOf]
    · intro j hj
      have hj' : j < (deltasOf evs).length := by omega
      rw [← deltasOf_getElem evs j hj']
      exact le_listMaxI hD _ (List.getElem_mem hj')
    · rfl

theorem claim2_delta_extreme_dates_witness :
    runOk (pipeline [⟨0, 300⟩, ⟨0, 600⟩, ⟨1, 0⟩] ["", ""]) = true ∧
      (statsOf (pipeline [⟨0, 300⟩, ⟨0, 600⟩, ⟨1, 0⟩] ["", ""])).deltaMinDate = 0 := by
  refine ⟨by decide, ?_⟩
  obtain ⟨⟨i, hi, hval, hmin, hdate⟩, -⟩ :=
    claim2_delta_extreme_dates [⟨0, 300⟩, ⟨0, 600⟩, ⟨1, 0⟩] ["", ""] (by decide)
  rw [hdate]
  have hi3 : i + 1 < 3 := by simpa using hi
  have hcase : i = 0 ∨ i = 1 := by omega
  rcases hcase with hc | hc <;> rw [hc]
  · rfl
  · rfl

/- Parser facts. -/

theorem parseTokens_none (dc t0 : List Char) (h0 : parseEvent dc t0 = none) :
    ∀ (toks : List (List Char)), t0 ∈ toks → parseTokens dc toks = none := by
  intro toks hm
  induction toks with
  | nil => cases hm
  | cons t ts ih =>
    rcases List.mem_cons.mp hm with h | h
    · rw [← h, parseTokens, h0]
    · cases hpe : parseEvent dc t <;> simp [parseTokens, hpe, ih h]

/-- C1 counterexample: parsing the file with the blocks written in the
claim's order (block 180101 with times 0600 0700 first, then block 180102
with time 0800) yields, after the whole-sequence reversal, the
NON-chronological sequence [2018-01-02 08:00, 2018-01-01 06:00,
2018-01-01 07:00] with deltas [-26h, +1h], not the claimed chronological
sequence with deltas [1h, 25h]. -/
theorem claim1_counterexample :
    parseFile ["180101", "0600 0700", "", "180102", "0800"] =
      .ok ([⟨dayNumber 2018 1 2, 480⟩, ⟨dayNumber 2018 1 1, 360⟩,
          ⟨dayNumber 2018 1 1, 420⟩], ["", ""]) ∧
      deltasOf [⟨dayNumber 2018 1 2, 480⟩, ⟨dayNumber 2018 1 1, 360⟩,
          ⟨dayNumber 2018 1 1, 420⟩] = [-1560, 60] ∧
      ([⟨dayNumber 2018 1 2, 480⟩, ⟨dayNumber 2018 1 1, 360⟩,
          ⟨dayNumber 2018 1 1, 420⟩] : List DateTime) ≠
        [⟨dayNumber 2018 1 1, 360⟩, ⟨dayNumber 2018 1 1, 420⟩,
          ⟨dayNumber 2018 1 2, 480⟩] ∧
      ([-1560, 60] : List Int) ≠ [60, 1500] := by
  exact ⟨by decide, by decide, by decide, by decide⟩

/-- C1 amended: with the two day-blocks written newest-first as the format
requires (block 180102 / 0800 first, then block 180101 / no comment /
0600 0700), parsing produces after the final reversal the chronological
event sequence [2018-01-01 06:00, 2018-01-01 07:00, 2018-01-02 08:00], and
the delta sequence holds exactly two deltas: 1h00m (60 min) and 25h00m
(1500 min). -/
theorem claim1_round_trip :
    parseFile ["180102", "0800", "", "180101", "0600 0700"] =
      .ok ([⟨dayNumber 2018 1 1, 360⟩, ⟨dayNumber 2018 1 1, 420⟩,
          ⟨dayNumber 2018 1 2, 480⟩], ["", ""]) ∧
      deltasOf [⟨dayNumber 2018 1 1, 360⟩, ⟨dayNumber 2018 1 1, 420⟩,
          ⟨dayNumber 2018 1 2, 480⟩] = [60, 1500] := by
  exact ⟨by decide, by decide⟩

/-- C10 counterexample: with date line 181111 and an empty time token, the
concatenated strptime input is the bare string 181111, which the
variable-width pattern parses as y=18, m=1, d=1, H=1, M=1; the script
therefore silently appends the spurious event 2018-01-01 01:01 (minute 61)
instead of failing, refuting the claim that an empty token always fails
with MalformedTimeError. -/
theorem claim10_counterexample :
    ([] : List Char) ∈ splitSpaces ("" : String).data ∧
      strHash "" = false ∧
      parseFile ["181111", ""] = .ok ([⟨dayNumber 2018 1 1, 61⟩], [""]) := by
  exact ⟨by decide, by decide, by decide⟩

/-- C10 amended: a day-block whose time-list line splits to an empty token
fails with the strptime ValueError (the spec's MalformedTimeError) exactly
when the 6-character date prefix does not itself match the whole
'%y%m%d%H%M' format under strptime's variable-width backtracking — the
usual case, e.g. every date whose month is written 01-09; a date prefix
that does match (such as 181111) instead silently contributes a spurious
event, per the counterexample. -/
theorem claim10_empty_time_token (dateLine timeLine : String)
    (rest : List String)
    (hd : strptimeYmdHM (dateLine.data.take 6) = none)
    (hnc : strHash timeLine = false)
    (he : [] ∈ splitSpaces timeLine.data) :
    parseLines .atDate (dateLine :: timeLine :: rest) = .error .valueError ∧
      parseFile (dateLine :: timeLine :: rest) = .error .valueError := by
  have h0 : parseEvent (dateLine.data.take 6) [] = none := by
    unfold parseEvent
    rw [List.append_nil]
    exact hd
  have hft : finishTokens (dateLine.data.take 6) timeLine = none :=
    parseTokens_none _ _ h0 _ (List.mem_reverse.mpr he)
  have h1 : parseLines .atDate (dateLine :: timeLine :: rest) = .error .valueError := by
    simp [parseLines, hnc, hft]
  exact ⟨h1, by simp [parseFile, h1]⟩

theorem claim10_empty_time_token_witness :
    parseFile ["180101", ""] = .error .valueError :=
  (claim10_empty_time_token "180101" "" [] (by decide) (by decide) (by decide)).2

/- The comment accumulated for a block always heads the comment list the
   rest of the parse produces. -/
theorem parseLines_afterComment_head (dc : List Char) (c : String)
    (ls : List String) (es : List DateTime) (cs : List String)
    (h : parseLines (.afterComment dc c) ls = .ok (es, cs)) :
    cs ≠ [] ∧ cs.headD "" = c := by
  cases ls with
  | nil =>
    rw [parseLines] at h
    cases hft : finishTokens dc "" with
    | none => rw [hft] at h; cases h
    | some evs =>
      rw [hft] at h
      have h2 := Except.ok.inj h
      have hcs : [c] = cs := congrArg Prod.snd h2
      rw [← hcs]
      exact ⟨by simp, rfl⟩
  | cons l ls' =>
    rw [parseLines] at h
    cases hft : finishTokens dc l with
    | none => rw [hft] at h; cases h
    | some evs =>
      rw [hft] at h
      cases hrec : parseLines PMode.skipLine ls' with
      | error e => rw [hrec] at h; cases h
      | ok p =>
        obtain ⟨es', cs'⟩ := p
        rw [hrec] at h
        have h2 : evs ++ es' = es ∧ c :: cs' = cs := by
          have := Except.ok.inj h
          exact ⟨congrArg Prod.fst this, congrArg Prod.snd this⟩
        rw [← h2.2]
        exact ⟨by simp, rfl⟩

/-- C9 counterexample: the script tests startswith('#'), not '#' followed
by a space.  For the block [180101, "#ab", "0600"] the claim says the
comment is empty and "#ab" is the time list (which would fail to parse);
the script instead records "b" (the line after its first two characters)
as the comment and parses "0600" as the time list. -/
theorem claim9_counterexample :
    parseFile ["180101", "#ab", "0600"] =
      .ok ([⟨dayNumber 2018 1 1, 360⟩], ["b"]) ∧
      "#ab".data.take 2 ≠ ['#', ' '] ∧
      ("b" : String) ≠ "" := by
  exact ⟨by decide, by decide, by decide⟩

/-- C9 amended: if the line after the date line begins with the comment
marker '#' (with or without a following space), the line after its first
two characters is captured as the block's comment and one further line is
read as the time list; otherwise the comment is the empty string and the
line just read is the time list; and (concrete alignment instance) for the
file [180102 / 0800 / blank / 180101 / "# hello" / 0600 0700] the comment
"hello" sits, after the global reversal and today trim, at the same index 0
as its day's date 2018-01-01. -/
theorem claim9_comment_capture :
    (∀ (dc : List Char) (l : String) (ls : List String) (es : List DateTime)
        (cs : List String), strHash l = true →
      parseLines (.afterDate dc) (l :: ls) = .ok (es, cs) →
      cs ≠ [] ∧ cs.headD "" = drop2 l) ∧
    (∀ (dc : List Char) (l : String) (ls : List String) (es : List DateTime)
        (cs : List String), strHash l = false →
      parseLines (.afterDate dc) (l :: ls) = .ok (es, cs) →
      cs ≠ [] ∧ cs.headD "" = "" ∧
        ∃ evs rest2, finishTokens dc l = some evs ∧ es = evs ++ rest2) ∧
    ((statsOf (run ["180102", "0800", "", "180101", "# hello", "0600 0700"])).commentsTrimmed
        = ["hello"] ∧
      (statsOf (run ["180102", "0800", "", "180101", "# hello", "0600 0700"])).uniqueDates
        = [dayNumber 2018 1 1] ∧
      (statsOf (run ["180102", "0800", "", "180101", "# hello", "0600 0700"])).countsPerDay
        = [2]) := by
  refine ⟨?_, ?_, by decide, by decide, by decide⟩
  · intro dc l ls es cs hsh h
    rw [parseLines, if_pos hsh] at h
    exact parseLines_afterComment_head dc (drop2 l) ls es cs h
  · intro dc l ls es cs hsh h
    rw [parseLines, if_neg (by simp [hsh])] at h
    cases hft : finishTokens dc l with
    | none => rw [hft] at h; cases h
    | some evs =>
      rw [hft] at h
      cases hrec : parseLines PMode.skipLine ls with
      | error e => rw [hrec] at h; cases h
      | ok p =>
        obtain ⟨es', cs'⟩ := p
        rw [hrec] at h
        have h2 : evs ++ es' = es ∧ ("" : String) :: cs' = cs := by
          have := Except.ok.inj h
          exact ⟨congrArg Prod.fst this, congrArg Prod.snd this⟩
        rw [← h2.2]
        exact ⟨by simp, rfl, evs, es', rfl, h2.1.symm⟩

theorem claim9_comment_capture_witness :
    parseLines (.afterDate "180101".data) ["# hi", "0600"] =
      .ok ([⟨dayNumber 2018 1 1, 360⟩], ["hi"]) ∧
      (["hi"] : List String) ≠ [] ∧ (["hi"] : List String).headD "" = drop2 "# hi" := by
  refine ⟨by decide, ?_, ?_⟩
  · exact ((claim9_comment_capture).1 "180101".data "# hi" ["0600"]
      [⟨dayNumber 2018 1 1, 360⟩] ["hi"] (by decide) (by decide)).1
  · exact ((claim9_comment_capture).1 "180101".data "# hi" ["0600"]
      [⟨dayNumber 2018 1 1, 360⟩] ["hi"] (by decide) (by decide)).2

theorem parseTokens_length (dc : List Char) :
    ∀ (toks : List (List Char)) (evs : List DateTime),
      parseTokens dc toks = some evs → evs.length = toks.length := by
  intro toks
  induction toks with
  | nil => intro evs h; rw [parseTokens] at h; cases h; rfl
  | cons t ts ih =>
    intro evs h
    rw [parseTokens] at h
    cases hpe : parseEvent dc t with
    | none => rw [hpe] at h; cases h
    | some e0 =>
      rw [hpe] at h
      cases hpt : parseTokens dc ts with
      | none => rw [hpt] at h; cases h
      | some es0 =>
        rw [hpt] at h
        cases h
        simp [ih es0 hpt]

theorem splitSpaces_ne_nil : ∀ (cs : List Char), splitSpaces cs ≠ []
  | [] => by simp [splitSpaces]
  | c :: rest => by
    rw [splitSpaces]
    by_cases hc : c = ' '
    · simp [hc]
    · rw [if_neg hc]
      cases hs : splitSpaces rest <;> simp

theorem finishTokens_ne_nil (dc : List Char) (l : String) (evs : List DateTime)
    (h : finishTokens dc l = some evs) : evs ≠ [] := by
  have hlen := parseTokens_length dc _ _ h
  intro he
  subst he
  rw [List.length_nil, List.length_reverse] at hlen
  exact splitSpaces_ne_nil l.data (List.length_eq_zero.mp hlen.symm)

/- Invariant of the reader loop: the event list is empty exactly when the
   comment list is (each block contributes at least one event and exactly
   one comment). -/
theorem parse_inv : ∀ (lines : List String) (mode : PMode) (es : List DateTime)
    (cs : List String), parseLines mode lines = .ok (es, cs) →
    (es = [] ↔ cs = []) := by
  intro lines
  induction lines with
  | nil =>
    intro mode es cs h
    cases mode with
    | atDate =>
      rw [parseLines] at h
      have h2 := Except.ok.inj h
      have hes : ([] : List DateTime) = es := congrArg Prod.fst h2
      have hcs : ([] : List String) = cs := congrArg Prod.snd h2
      rw [← hes, ← hcs]
      simp
    | afterDate dc =>
      rw [parseLines] at h
      cases hft : finishTokens dc "" with
      | none => rw [hft] at h; cases h
      | some evs =>
        rw [hft] at h
        have h2 := Except.ok.inj h
        have hes : evs = es := congrArg Prod.fst h2
        have hcs : [""] = cs := congrArg Prod.snd h2
        have hne : evs ≠ [] := finishTokens_ne_nil dc "" evs hft
        rw [← hes, ← hcs]
        simp [hne]
    | afterComment dc c =>
      rw [parseLines] at h
      cases hft : finishTokens dc "" with
      | none => rw [hft] at h; cases h
      | some evs =>
        rw [hft] at h
        have h2 := Except.ok.inj h
        have hes : evs = es := congrArg Prod.fst h2
        have hcs : [c] = cs := congrArg Prod.snd h2
        have hne : evs ≠ [] := finishTokens_ne_nil dc "" evs hft
        rw [← hes, ← hcs]
        simp [hne]
    | skipLine =>
      rw [parseLines] at h
      have h2 := Except.ok.inj h
      have hes : ([] : List DateTime) = es := congrArg Prod.fst h2
      have hcs : ([] : List String) = cs := congrArg Prod.snd h2
      rw [← hes, ← hcs]
      simp
  | cons l ls ih =>
    intro mode es cs h
    cases mode with
    | atDate =>
      rw [parseLines] at h
      exact ih _ es cs h
    | skipLine =>
      rw [parseLines] at h
      exact ih _ es cs h
    | afterComment dc c =>
      rw [parseLines] at h
      cases hft : finishTokens dc l with
      | none => rw [hft] at h; cases h
      | some evs =>
        rw [hft] at h
        cases hrec : parseLines PMode.skipLine ls with
        | error e => rw [hrec] at h; cases h
        | ok p =>
          obtain ⟨es2, cs2⟩ := p
          rw [hrec] at h
          have h2 := Except.ok.inj h
          have hes : evs ++ es2 = es := congrArg Prod.fst h2
          have hcs : c :: cs2 = cs := congrArg Prod.snd h2
          have hne : evs ≠ [] := finishTokens_ne_nil dc l evs hft
          rw [← hes, ← hcs]
          simp [List.append_eq_nil, hne]
    | afterDate dc =>
      rw [parseLines] at h
      by_cases hsh : strHash l
      · rw [if_pos hsh] at h
        exact ih _ es cs h
      · rw [if_neg hsh] at h
        cases hft : finishTokens dc l with
        | none => rw [hft] at h; cases h
        | some evs =>
          rw [hft] at h
          cases hrec : parseLines PMode.skipLine ls with
          | error e => rw [hrec] at h; cases h
          | ok p =>
            obtain ⟨es2, cs2⟩ := p
            rw [hrec] at h
            have h2 := Except.ok.inj h
            have hes : evs ++ es2 = es := congrArg Prod.fst h2
            have hcs : ("" : String) :: cs2 = cs := congrArg Prod.snd h2
            have hne : evs ≠ [] := finishTokens_ne_nil dc l evs hft
            rw [← hes, ← hcs]
            simp [List.append_eq_nil, hne]

/- Counting distinct elements through dedupFirst. -/

theorem dedupFirst_length_eq_card {α : Type} [DecidableEq α] (l : List α) :
    (dedupFirst l).length = l.toFinset.card := by
  rw [(dedupFirst_perm_dedup l).length_eq, List.card_toFinset]

theorem dedupFirst_eq_nil_iff {α : Type} [DecidableEq α] (l : List α) :
    dedupFirst l = [] ↔ l = [] := by
  cases l <;> simp [dedupFirst]

/- Per-day counts are positive (each counted date occurs). -/
theorem epdAll_pos (evs : List DateTime) : ∀ x ∈ epdAllOf evs, 0 < x := by
  intro x hx
  unfold epdAllOf eventsPerDayOf at hx
  obtain ⟨d, hd, rfl⟩ := List.mem_map.mp hx
  exact List.count_pos_iff.mpr (mem_dedupFirst.mp hd)

theorem medTrimmed_pos (evs : List DateTime)
    (h3 : (epdAllOf evs).dropLast ≠ []) : 0 < medTrimmed evs := by
  unfold medTrimmed
  have hl : 0 < (epdAllOf evs).dropLast.length := List.length_pos.2 h3
  have hlen : (epdAllOf evs).dropLast.length / 2 <
      (List.insertionSort (fun a b => a ≤ b) (epdAllOf evs).dropLast).length := by
    rw [(List.perm_insertionSort _ _).length_eq]
    omega
  rw [List.getD_eq_getElem _ _ hlen]
  have hmem : (List.insertionSort (fun a b => a ≤ b)
      (epdAllOf evs).dropLast)[(epdAllOf evs).dropLast.length / 2] ∈
      (epdAllOf evs).dropLast :=
    (List.perm_insertionSort _ _).mem_iff.mp (List.getElem_mem hlen)
  exact epdAll_pos evs _ (List.Sublist.mem hmem (List.dropLast_sublist _))

/-- C3: for every successfully parsed input, the statistics phase fails
(raising one of the script's errors, the spec's InsufficientDataError
situations) exactly when there are fewer than 2 events or fewer than 2
distinct dates; with 0 distinct dates the pop raises IndexError, with 1 the
mean of the empty trimmed series raises ZeroDivisionError. -/
theorem claim3_insufficient_data (lines : List String) (evs : List DateTime)
    (cms : List String) (hp : parseFile lines = .ok (evs, cms)) :
    runOk (pipeline evs cms) = false ↔
      (evs.length < 2 ∨ (dedupFirst (evs.map DateTime.day)).length < 2) := by
  unfold parseFile at hp
  cases hpl : parseLines PMode.atDate lines with
  | error e => rw [hpl] at hp; cases hp
  | ok p =>
    obtain ⟨es0, cs0⟩ := p
    rw [hpl] at hp
    have h2 := Except.ok.inj hp
    have hes : es0.reverse = evs := congrArg Prod.fst h2
    have hcs : cs0.reverse = cms := congrArg Prod.snd h2
    have hinv := parse_inv lines PMode.atDate es0 cs0 hpl
    have hiff : evs = [] ↔ cms = [] := by
      rw [← hes, ← hcs]
      simpa [List.reverse_eq_nil_iff] using hinv
    have hdst_card : (dedupFirst (evs.map DateTime.day)).length =
        (evs.map DateTime.day).toFinset.card := dedupFirst_length_eq_card _
    have hepd_len : (epdAllOf evs).length =
        (dedupFirst (evs.map DateTime.day)).length := by
      simp [epdAllOf, eventsPerDayOf]
    have hdst_le_len : (dedupFirst (evs.map DateTime.day)).length ≤ evs.length := by
      rw [hdst_card]
      calc (evs.map DateTime.day).toFinset.card ≤ (evs.map DateTime.day).length :=
            List.toFinset_card_le _
        _ = evs.length := List.length_map _ _
    constructor
    · intro hfail
      by_contra hcon
      push_neg at hcon
      obtain ⟨hA, hB⟩ := hcon
      have h1' : epdAllOf evs ≠ [] := by
        intro hh
        rw [hh] at hepd_len
        simp at hepd_len
        omega
      have h2' : cms ≠ [] := by
        intro hh
        have : evs = [] := hiff.mpr hh
        rw [this] at hA
        simp at hA
      have h3' : (epdAllOf evs).dropLast ≠ [] := by
        intro hh
        have hlen := congrArg List.length hh
        rw [List.length_dropLast, hepd_len] at hlen
        simp at hlen
        omega
      have h4' : medTrimmed evs ≠ 0 := (medTrimmed_pos evs h3').ne'
      have h5' : deltasOf evs ≠ [] := by
        intro hh
        have hlen := congrArg List.length hh
        rw [deltasOf_length] at hlen
        simp at hlen
        omega
      rw [pipeline_ok_intro h1' h2' h3' h4' h5'] at hfail
      cases hfail
    · intro hsmall
      have hdlt : (dedupFirst (evs.map DateTime.day)).length < 2 := by
        rcases hsmall with hl | hd
        · omega
        · exact hd
      have hcases : (dedupFirst (evs.map DateTime.day)).length = 0 ∨
          (dedupFirst (evs.map DateTime.day)).length = 1 := by omega
      rcases hcases with h0 | h1
      · have hevs : epdAllOf evs = [] :=
          List.length_eq_zero.mp (by rw [hepd_len]; exact h0)
        unfold pipeline
        rw [if_pos hevs]
        rfl
      · have hepd1 : (epdAllOf evs).length = 1 := by rw [hepd_len]; exact h1
        have h1' : ¬ epdAllOf evs = [] := by
          intro hh
          rw [hh] at hepd1
          simp at hepd1
        have hevs_ne : evs ≠ [] := by
          intro hh
          subst hh
          simp [epdAllOf, eventsPerDayOf, dedupFirst] at hepd1
        have h2' : ¬ cms = [] := fun hh => hevs_ne (hiff.mpr hh)
        have h3' : (epdAllOf evs).dropLast = [] :=
          List.length_eq_zero.mp (by rw [List.length_dropLast, hepd1])
        unfold pipeline
        rw [if_neg h1', if_neg h2', if_pos h3']
        rfl

theorem claim3_insufficient_data_witness :
    parseFile ["180101", "0600 0700"] =
      .ok ([⟨dayNumber 2018 1 1, 360⟩, ⟨dayNumber 2018 1 1, 420⟩], [""]) ∧
      runOk (pipeline [⟨dayNumber 2018 1 1, 360⟩, ⟨dayNumber 2018 1 1, 420⟩]
        [""]) = false := by
  refine ⟨by decide, ?_⟩
  exact (claim3_insufficient_data ["180101", "0600 0700"]
      [⟨dayNumber 2018 1 1, 360⟩, ⟨dayNumber 2018 1 1, 420⟩] [""]
      (by decide)).mpr (Or.inr (by decide))

